import Mathlib

/-
Verification of src/czor/main.c.

The program declares one external function

  extern int32_t upples(const char* addr, const char* app,
                        const char* tmp, const char* log);

and its `main` is

  int main() {
      int32_t res = upples(
          "127.0.0.1:3000",
          "/home/ivan/github/spin/examples/http-rust/spin.toml",
          "./TEMPYWEMPY",
          "./LOGGLYWOGGLY"
      );
      printf("UPPLES: %d\n", res);
      return res;
  }

We embed the program as a function from the external return value `r`
(the only free input of the program) to the finite trace of observable
events it performs.  The event alphabet is richer than what the program
uses (stderr writes, stdin reads, file opens) so that frame conditions
"the program never does X" are expressible, and so refutable, rather
than true by construction of the alphabet.
-/

namespace Czor

/-- Observable events of a run: the external call (with its argument
list), writes to stdout and stderr, reads from stdin, file opens, and
process termination with an exit code. -/
inductive Event where
  | callUpples (args : List String)
  | stdoutWrite (s : String)
  | stderrWrite (s : String)
  | stdinRead (s : String)
  | fileOpen (path : String)
  | exitWith (code : Int)
  deriving DecidableEq, Repr

/-- Constructor tag of an event, used to compare the shapes of two
traces while ignoring payloads. -/
inductive EventKind where
  | call
  | outWrite
  | errWrite
  | inRead
  | fOpen
  | quit
  deriving DecidableEq, Repr

def Event.kind : Event → EventKind
  | .callUpples _ => .call
  | .stdoutWrite _ => .outWrite
  | .stderrWrite _ => .errWrite
  | .stdinRead _ => .inRead
  | .fileOpen _ => .fOpen
  | .exitWith _ => .quit

def Event.isCall : Event → Bool
  | .callUpples _ => true
  | _ => false

def Event.isStdout : Event → Bool
  | .stdoutWrite _ => true
  | _ => false

def Event.isStderr : Event → Bool
  | .stderrWrite _ => true
  | _ => false

def Event.isExit : Event → Bool
  | .exitWith _ => true
  | _ => false

/-- The character for decimal digit `d`, as printf produces it
(ASCII 48 + d). -/
def digitChar (d : Nat) : Char := Char.ofNat (48 + d)

/-- Decimal digit characters of `n`, most significant first, as printed
by printf's integer conversion.  Structural recursion on a fuel bound;
`natDec` below supplies sufficient fuel. -/
def natDecAux : Nat → Nat → List Char
  | 0, _ => []
  | fuel + 1, n =>
    if n < 10 then [digitChar n]
    else natDecAux fuel (n / 10) ++ [digitChar (n % 10)]

/-- Decimal digit characters of `n`, most significant first. -/
def natDec (n : Nat) : List Char := natDecAux (n + 1) n

/-- Embedding of printf's `%d` conversion: a minus sign when the
argument is negative, followed by the decimal digits of its absolute
value. -/
def formatD (r : Int) : String :=
  if r < 0 then String.mk ('-' :: natDec r.natAbs) else String.mk (natDec r.natAbs)

/-- First hardcoded argument of the call in main.c (bind address). -/
def upplesAddr : String := "127.0.0.1:3000"

/-- Second hardcoded argument (manifest/config file path). -/
def upplesApp : String := "/home/ivan/github/spin/examples/http-rust/spin.toml"

/-- Third hardcoded argument (temporary directory path). -/
def upplesTmp : String := "./TEMPYWEMPY"

/-- Fourth hardcoded argument (log file path). -/
def upplesLog : String := "./LOGGLYWOGGLY"

/-- The argument list of the single call to `upples`, in source order. -/
def upplesArgs : List String := [upplesAddr, upplesApp, upplesTmp, upplesLog]

/-- The line `printf("UPPLES: %d\n", res)` writes for result `r`. -/
def upplesLine (r : Int) : String := "UPPLES: " ++ formatD r ++ "\n"

/-- The trace of `main` as a function of the value `r` returned by the
external call: call `upples` with the four literals, write the result
line to stdout, terminate returning `res` unchanged. -/
def mainTrace (r : Int) : List Event :=
  [Event.callUpples upplesArgs, Event.stdoutWrite (upplesLine r), Event.exitWith r]

/-- The value `main` returns (`return res;`). -/
def mainExit (r : Int) : Int := r

/-- The run of the whole program.  `main` is declared with no
parameters and its body names neither command-line arguments nor the
environment, so the trace does not depend on them. -/
def mainRun (argv : List String) (env : List (String × String)) (r : Int) : List Event :=
  mainTrace r

/-- Strings written to stdout along a trace, in order. -/
def stdoutOf (t : List Event) : List String :=
  t.filterMap fun e =>
    match e with
    | .stdoutWrite s => some s
    | _ => none

/-- Strings written to stderr along a trace, in order. -/
def stderrOf (t : List Event) : List String :=
  t.filterMap fun e =>
    match e with
    | .stderrWrite s => some s
    | _ => none

/-- Strings read from stdin along a trace, in order. -/
def stdinOf (t : List Event) : List String :=
  t.filterMap fun e =>
    match e with
    | .stdinRead s => some s
    | _ => none

/-- Paths of files opened along a trace, in order. -/
def opensOf (t : List Event) : List String :=
  t.filterMap fun e =>
    match e with
    | .fileOpen p => some p
    | _ => none

/-- Argument lists of the calls to `upples` along a trace, in order. -/
def callsOf (t : List Event) : List (List String) :=
  t.filterMap fun e =>
    match e with
    | .callUpples a => some a
    | _ => none

/-- The exit code of a trace: the code of its first termination event. -/
def exitCodeOf (t : List Event) : Option Int :=
  (t.filterMap fun e =>
    match e with
    | .exitWith c => some c
    | _ => none).head?

/-- A trace is terminating when its final event is process exit. -/
def terminatesTrace (t : List Event) : Bool :=
  match t.getLast? with
  | some (Event.exitWith _) => true
  | _ => false

/-- A string is a valid argument for a `const char*` parameter when it
contains no interior NUL character, so the appended terminator is the
only NUL the callee sees. -/
def noInteriorNul (s : String) : Bool :=
  s.data.all fun c => c ≠ Char.ofNat 0

/-- The range of `int32_t`. -/
def Int32Range (r : Int) : Prop := -(2 ^ 31) ≤ r ∧ r ≤ 2 ^ 31 - 1

instance (r : Int) : Decidable (Int32Range r) := by
  unfold Int32Range
  infer_instance

/-- Value of a digit-character list read as a decimal numeral. -/
def decodeDec (l : List Char) : Nat :=
  l.foldl (fun a c => 10 * a + (c.toNat - 48)) 0

/-- Value of a string read as an optionally minus-signed decimal
numeral. -/
def decodeInt (s : String) : Int :=
  if s.data.head? = some '-' then -(decodeDec s.data.tail : Int) else (decodeDec s.data : Int)

theorem decodeDec_append (l : List Char) (c : Char) :
    decodeDec (l ++ [c]) = 10 * decodeDec l + (c.toNat - 48) := by
  simp [decodeDec, List.foldl_append]

theorem digitChar_toNat (d : Nat) (hd : d < 10) : (digitChar d).toNat = 48 + d := by
  interval_cases d <;> decide

theorem digitChar_range (d : Nat) (hd : d < 10) :
    48 ≤ (digitChar d).toNat ∧ (digitChar d).toNat ≤ 57 := by
  interval_cases d <;> decide

theorem natDecAux_decode :
    ∀ (fuel n : Nat), n < fuel → decodeDec (natDecAux fuel n) = n := by
  intro fuel
  induction fuel with
  | zero => intro n h; omega
  | succ f ih =>
    intro n h
    by_cases h10 : n < 10
    · simp only [natDecAux, if_pos h10, decodeDec, List.foldl_cons, List.foldl_nil]
      rw [digitChar_toNat n h10]
      omega
    · simp only [natDecAux, if_neg h10]
      rw [decodeDec_append, ih (n / 10) (by omega)]
      rw [digitChar_toNat (n % 10) (by omega)]
      omega

theorem natDecAux_digits :
    ∀ (fuel n : Nat), n < fuel →
      ∀ c ∈ natDecAux fuel n, 48 ≤ c.toNat ∧ c.toNat ≤ 57 := by
  intro fuel
  induction fuel with
  | zero => intro n h; omega
  | succ f ih =>
    intro n h c hc
    by_cases h10 : n < 10
    · simp only [natDecAux, if_pos h10, List.mem_singleton] at hc
      subst hc
      exact digitChar_range n h10
    · simp only [natDecAux, if_neg h10, List.mem_append, List.mem_singleton] at hc
      rcases hc with hc | hc
      · exact ih (n / 10) (by omega) c hc
      · subst hc
        exact digitChar_range (n % 10) (by omega)

theorem natDecAux_ne_nil :
    ∀ (fuel n : Nat), n < fuel → natDecAux fuel n ≠ [] := by
  intro fuel
  induction fuel with
  | zero => intro n h; omega
  | succ f ih =>
    intro n h
    by_cases h10 : n < 10
    · simp [natDecAux, if_pos h10]
    · simp [natDecAux, if_neg h10]

theorem natDec_decode (n : Nat) : decodeDec (natDec n) = n :=
  natDecAux_decode (n + 1) n (Nat.lt_succ_self n)

theorem natDec_digits (n : Nat) :
    ∀ c ∈ natDec n, 48 ≤ c.toNat ∧ c.toNat ≤ 57 :=
  natDecAux_digits (n + 1) n (Nat.lt_succ_self n)

theorem natDec_ne_nil (n : Nat) : natDec n ≠ [] :=
  natDecAux_ne_nil (n + 1) n (Nat.lt_succ_self n)

theorem formatD_data (r : Int) :
    (formatD r).data = if r < 0 then '-' :: natDec r.natAbs else natDec r.natAbs := by
  unfold formatD
  split <;> rfl

theorem formatD_chars (r : Int) :
    ∀ c ∈ (formatD r).data, c = '-' ∨ (48 ≤ c.toNat ∧ c.toNat ≤ 57) := by
  intro c hc
  rw [formatD_data] at hc
  split at hc
  · rcases List.mem_cons.mp hc with hc | hc
    · exact Or.inl hc
    · exact Or.inr (natDec_digits _ c hc)
  · exact Or.inr (natDec_digits _ c hc)

theorem decodeInt_formatD (r : Int) : decodeInt (formatD r) = r := by
  by_cases hr : r < 0
  · have hd : (formatD r).data = '-' :: natDec r.natAbs := by
      rw [formatD_data, if_pos hr]
    unfold decodeInt
    rw [hd]
    simp only [List.head?_cons, List.tail_cons, if_true, if_pos rfl, natDec_decode]
    omega
  · have hne := natDec_ne_nil r.natAbs
    obtain ⟨c, l, hcl⟩ := List.exists_cons_of_ne_nil hne
    have hd : (formatD r).data = c :: l := by
      rw [formatD_data, if_neg hr, hcl]
    have hdig : 48 ≤ c.toNat ∧ c.toNat ≤ 57 := by
      refine natDec_digits r.natAbs c ?_
      rw [hcl]
      exact List.mem_cons_self c l
    have hcne : c ≠ '-' := by
      intro h
      rw [h] at hdig
      have h45 : ('-').toNat = 45 := rfl
      omega
    have hcond : ¬((c :: l).head? = some '-') := by
      simp [hcne]
    unfold decodeInt
    rw [hd, if_neg hcond, ← hcl, natDec_decode]
    omega

theorem string_data_append (a b : String) : (a ++ b).data = a.data ++ b.data := rfl

theorem newline_not_mem_body (r : Int) : '\n' ∉ ("UPPLES: " ++ formatD r).data := by
  rw [string_data_append]
  intro hmem
  rcases List.mem_append.mp hmem with h | h
  · exact absurd h (by decide)
  · rcases formatD_chars r _ h with h1 | h1
    · exact absurd h1 (by decide)
    · have : ('\n').toNat = 10 := rfl
      omega

/-- C1: for every value `r` returned by the external function `upples`,
the program terminates with process exit status exactly `r`: the exit
event of the trace carries `r` and the value returned from `main` is
`r` itself, with no masking, translation, or remapping. -/
theorem C1_exit_status_verbatim (r : Int) :
    exitCodeOf (mainTrace r) = some r ∧ mainExit r = r :=
  ⟨rfl, rfl⟩

/-- C2: for every value `r` returned by `upples`, the program writes
exactly one string to stdout, that string is a single newline-terminated
line (no newline occurs before the terminator), the line contains the
decimal rendering of `r`, and nothing is written to stderr. -/
theorem C2_single_line_reporting (r : Int) :
    ∃ body, stdoutOf (mainTrace r) = [body ++ "\n"] ∧
      '\n' ∉ body.data ∧
      (∃ pre post, body ++ "\n" = pre ++ formatD r ++ post) ∧
      stderrOf (mainTrace r) = [] := by
  refine ⟨"UPPLES: " ++ formatD r, rfl, newline_not_mem_body r, ⟨"UPPLES: ", "\n", rfl⟩, rfl⟩

/-- C3: in every execution (for every return value `r`, zero or not),
`upples` is invoked exactly once, with exactly the four literal string
arguments of main.c in source order; the list of calls along the trace
is that single call and nothing else. -/
theorem C3_single_call_exact_args (r : Int) :
    callsOf (mainTrace r) =
      [["127.0.0.1:3000", "/home/ivan/github/spin/examples/http-rust/spin.toml",
        "./TEMPYWEMPY", "./LOGGLYWOGGLY"]] :=
  rfl

/-- C4: for every nonzero return value `r`, the trace has exactly the
same event shape as the zero case; `r` is surfaced only as the exit
code and as the printed integer, with no stderr output and no distinct
error branch. -/
theorem C4_nonzero_like_zero (r : Int) (h : r ≠ 0) :
    (mainTrace r).map Event.kind = (mainTrace 0).map Event.kind ∧
    stderrOf (mainTrace r) = [] ∧
    stdoutOf (mainTrace r) = [upplesLine r] ∧
    exitCodeOf (mainTrace r) = some r :=
  ⟨rfl, rfl, rfl, rfl⟩

/-- Witness for C4 at the concrete nonzero return value 5. -/
theorem C4_nonzero_like_zero_witness :
    (mainTrace 5).map Event.kind = (mainTrace 0).map Event.kind ∧
    stderrOf (mainTrace 5) = [] ∧
    stdoutOf (mainTrace 5) = [upplesLine 5] ∧
    exitCodeOf (mainTrace 5) = some 5 :=
  C4_nonzero_like_zero 5 (by decide)

/-- C5: the boundary matches the stated contract: `upples` is called
with exactly four arguments, each a valid null-terminated string (no
interior NUL character), and the `int32_t` value it returns is passed
through `main` unchanged, hence stays in the signed 32-bit range. -/
theorem C5_boundary_contract :
    upplesArgs.length = 4 ∧
    (∀ a ∈ upplesArgs, noInteriorNul a = true) ∧
    (∀ r : Int, Int32Range r → Int32Range (mainExit r)) := by
  refine ⟨rfl, by decide, ?_⟩
  intro r h
  exact h

/-- Witness for C5 at the concrete argument `upplesAddr` and the
concrete return value -7. -/
theorem C5_boundary_contract_witness :
    noInteriorNul upplesAddr = true ∧ Int32Range (mainExit (-7)) :=
  ⟨C5_boundary_contract.2.1 upplesAddr (by decide),
   C5_boundary_contract.2.2 (-7) (by decide)⟩

/-- C6: in every execution the call to `upples` comes strictly before
the stdout write, which comes strictly before the exit event; all three
occur in the trace, and the exit event is the last event. -/
theorem C6_call_print_exit_order (r : Int) :
    (mainTrace r).findIdx Event.isCall < (mainTrace r).findIdx Event.isStdout ∧
    (mainTrace r).findIdx Event.isStdout < (mainTrace r).findIdx Event.isExit ∧
    (mainTrace r).findIdx Event.isExit < (mainTrace r).length ∧
    (mainTrace r).getLast? = some (Event.exitWith r) := by
  have h1 : (mainTrace r).findIdx Event.isCall = 0 := rfl
  have h2 : (mainTrace r).findIdx Event.isStdout = 1 := rfl
  have h3 : (mainTrace r).findIdx Event.isExit = 2 := rfl
  have h4 : (mainTrace r).length = 3 := rfl
  refine ⟨by omega, by omega, by omega, rfl⟩

/-- C7: the observable behavior is a deterministic function of the
single value `r` returned by `upples`: any two runs with the same `r`
produce identical traces, whatever the command-line arguments and
environment are. -/
theorem C7_deterministic_in_r (a1 : List String) (e1 : List (String × String))
    (a2 : List String) (e2 : List (String × String)) (r1 r2 : Int) (h : r1 = r2) :
    mainRun a1 e1 r1 = mainRun a2 e2 r2 := by
  subst h
  rfl

/-- Witness for C7: two runs with different argv and env but the same
return value 3 have identical traces. -/
theorem C7_deterministic_in_r_witness :
    mainRun ["prog", "--flag"] [("HOME", "/root")] 3 = mainRun [] [] 3 :=
  C7_deterministic_in_r ["prog", "--flag"] [("HOME", "/root")] [] [] 3 3 rfl

/-- C8: the single printed line is exactly the string "UPPLES: "
followed by the printf `%d` rendering of `r` and a trailing newline;
`formatD` is certified as the signed decimal representation: decoding
it as a signed decimal numeral gives back `r`, and each of its
characters is a minus sign or a decimal digit. -/
theorem C8_exact_format (r : Int) :
    stdoutOf (mainTrace r) = ["UPPLES: " ++ formatD r ++ "\n"] ∧
    decodeInt (formatD r) = r ∧
    (∀ c ∈ (formatD r).data, c = '-' ∨ (48 ≤ c.toNat ∧ c.toNat ≤ 57)) :=
  ⟨rfl, decodeInt_formatD r, formatD_chars r⟩

/-- C9: whenever the call to `upples` returns, the program terminates:
for every return value `r` the trace is finite (length 3) and its final
event is process exit. -/
theorem C9_terminates (r : Int) :
    terminatesTrace (mainTrace r) = true ∧ (mainTrace r).length = 3 :=
  ⟨rfl, rfl⟩

/-- C10: apart from the call to `upples` itself and termination, the
only event of the trace is the single stdout write: nothing is written
to stderr, nothing is read from stdin, and no file is opened. -/
theorem C10_effect_frame (r : Int) :
    (mainTrace r).filter (fun e => !(e.isCall || e.isExit)) =
      [Event.stdoutWrite (upplesLine r)] ∧
    stderrOf (mainTrace r) = [] ∧
    stdinOf (mainTrace r) = [] ∧
    opensOf (mainTrace r) = [] :=
  ⟨rfl, rfl, rfl, rfl⟩

end Czor
